import Mathlib

/-
Verification of the drawing/signature capture engine of the XMLForm
renderer (the DrawingModal component).

The component keeps two pieces of React state:
  paths       : the list of committed strokes      (useState([]))
  currentPath : the in-progress stroke, or null    (useState(null))
and reacts to PanResponder gesture events (grant / move / release; the
PanResponder.create configuration supplies no terminate handler), a
clearCanvas button, and a saveDrawing button.  Rendering is done by the
drawPaths effect, which re-executes a fixed sequence of 2d-canvas
operations from the current state.  We embed the state, the handlers,
the emitted canvas-operation list, and a pixel-level interpreter for
those operations.

One closure subtlety matters.  The handlers are created exactly once,
inside `useRef(PanResponder.create({...})).current`, on the first
render.  Handlers that write state directly (`onPanResponderGrant`) or
read it through a functional updater (`onPanResponderMove`'s
`setCurrentPath(current => ...)`) still see live state, but
`onPanResponderRelease` reads the plain variable `currentPath` from its
closure — permanently the first render's value, `null`.  The embedding
separates the value a handler's closure captured from the live state
the setters act on, and wires the release handler to its actual
captured value.
-/

namespace XMLForm

/-- A sampled touch coordinate, `{ x: locationX, y: locationY }`.
JavaScript numbers are embedded as rationals. -/
structure Point where
  x : ℚ
  y : ℚ
deriving DecidableEq, Repr

/-- A stroke as created by `onPanResponderGrant`:
`{ points: [...], color: 'black', width: 2 }`. -/
structure Stroke where
  points : List Point
  color : String
  width : ℚ
deriving DecidableEq, Repr

/-- The component's drawing state: `paths` (committed strokes, the
StrokeSet) and `currentPath` (the ActiveStroke, null when idle). -/
structure DrawingState where
  paths : List Stroke
  currentPath : Option Stroke
deriving DecidableEq, Repr

/-- Initial state: `useState([])` and `useState(null)`. -/
def initialDrawingState : DrawingState := ⟨[], none⟩

/-- `onPanResponderGrant`: start a fresh one-point stroke with the fixed
style `color: 'black', width: 2`. -/
def onPanResponderGrant (lx ly : ℚ) (st : DrawingState) : DrawingState :=
  { st with currentPath := some ⟨[⟨lx, ly⟩], "black", 2⟩ }

/-- `onPanResponderMove`: `setCurrentPath(current => ({ ...current,
points: [...current.points, { x, y }] }))`.  When `currentPath` is null
the updater dereferences `current.points` on null, a TypeError; this is
embedded as `none`. -/
def onPanResponderMove (lx ly : ℚ) (st : DrawingState) : Option DrawingState :=
  match st.currentPath with
  | none => none
  | some c =>
      some { st with currentPath := some { c with points := c.points ++ [⟨lx, ly⟩] } }

/-- `onPanResponderRelease`: `if (currentPath) { setPaths(prev =>
[...prev, currentPath]); setCurrentPath(null); }`.  The `currentPath`
the handler tests and commits is `captured`, the value its closure
holds; only `setPaths`'s functional updater (`prev => ...`) reads the
live state `st`. -/
def onPanResponderRelease (captured : Option Stroke) (st : DrawingState) : DrawingState :=
  match captured with
  | none => st
  | some c => ⟨st.paths ++ [c], none⟩

/-- The `currentPath` the release handler's closure captured: the
handlers are created once, on the first render, inside
`useRef(PanResponder.create({...}))`, so the closure permanently holds
the first render's `currentPath` — `null` (`useState(null)`). -/
def capturedCurrentPath : Option Stroke := none

/-- `clearCanvas`: `setPaths([]); setCurrentPath(null);`. -/
def clearCanvas (_ : DrawingState) : DrawingState := ⟨[], none⟩

/-- The state-mutating user actions the component handles: the three
PanResponder callbacks present in `PanResponder.create`, gesture
termination (cancel) — for which that configuration supplies no
callback — and the Clear button. -/
inductive DAction where
  | grant (lx ly : ℚ)
  | move (lx ly : ℚ)
  | release
  | terminate
  | clear
deriving DecidableEq, Repr

/-- One event dispatch.  `terminate` (host-initiated gesture cancel) has
no handler in `PanResponder.create`, so the state is unchanged. -/
def stepAction (st : DrawingState) : DAction → Option DrawingState
  | .grant lx ly => some (onPanResponderGrant lx ly st)
  | .move lx ly => onPanResponderMove lx ly st
  | .release => some (onPanResponderRelease capturedCurrentPath st)
  | .terminate => some st
  | .clear => some (clearCanvas st)

/-- Serial dispatch of a sequence of events (the host delivers touch
events one at a time, each handler running to completion). -/
def runActions (st : DrawingState) (acts : List DAction) : Option DrawingState :=
  List.foldlM stepAction st acts

theorem runActions_nil (st : DrawingState) : runActions st [] = some st := rfl

theorem runActions_cons (st : DrawingState) (a : DAction) (acts : List DAction) :
    runActions st (a :: acts) = (stepAction st a).bind (fun st' => runActions st' acts) := by
  cases h : stepAction st a <;> simp [runActions, List.foldlM, h, Option.bind]

theorem runActions_append (st : DrawingState) (l1 l2 : List DAction) :
    runActions st (l1 ++ l2) = (runActions st l1).bind (fun st' => runActions st' l2) := by
  induction l1 generalizing st with
  | nil => simp [runActions_nil]
  | cons a l ih =>
      rw [List.cons_append, runActions_cons, runActions_cons]
      cases stepAction st a with
      | none => rfl
      | some st' => simpa using ih st'

/-- Running a block of moves while a stroke is active appends one point
per move and touches nothing else. -/
theorem runActions_moves (ms : List (ℚ × ℚ)) (st : DrawingState) (c : Stroke)
    (h : st.currentPath = some c) :
    runActions st (ms.map (fun q => DAction.move q.1 q.2)) =
      some ⟨st.paths, some ⟨c.points ++ ms.map (fun q => ⟨q.1, q.2⟩), c.color, c.width⟩⟩ := by
  induction ms generalizing st c with
  | nil =>
      cases st with
      | mk paths cur =>
          cases c
          simp only [List.map_nil, runActions_nil, List.append_nil]
          simp_all
  | cons m ms ih =>
      rw [List.map_cons, runActions_cons]
      simp only [stepAction, onPanResponderMove, h]
      rw [Option.some_bind]
      rw [ih _ ⟨c.points ++ [⟨m.1, m.2⟩], c.color, c.width⟩ rfl]
      simp

/-! ## The canvas-operation trace emitted by the `drawPaths` effect -/

/-- One 2d-canvas context operation issued by `drawPaths`. -/
inductive CanvasOp where
  | setFillStyle (c : String)
  | fillRect (x y w h : ℚ)
  | beginPath
  | setStrokeStyle (c : String)
  | setLineWidth (w : ℚ)
  | setLineCap (v : String)
  | setLineJoin (v : String)
  | moveTo (p : Point)
  | lineTo (p : Point)
  | stroke
deriving DecidableEq, Repr

/-- The indexed `points.forEach((point, index) => index === 0 ? moveTo :
lineTo)` loop shared by the committed-path and current-path branches of
`drawPaths`. -/
def pathPointOps (pts : List Point) : List CanvasOp :=
  pts.enum.map (fun ip => if ip.1 = 0 then CanvasOp.moveTo ip.2 else CanvasOp.lineTo ip.2)

/-- The operations `drawPaths` issues for one stroke: `beginPath`, the
four style assignments (`strokeStyle`, `lineWidth`, `lineCap = 'round'`,
`lineJoin = 'round'`), the point loop, then `stroke()`. -/
def strokeOps (k : Stroke) : List CanvasOp :=
  [CanvasOp.beginPath, CanvasOp.setStrokeStyle k.color, CanvasOp.setLineWidth k.width,
      CanvasOp.setLineCap "round", CanvasOp.setLineJoin "round"]
    ++ pathPointOps k.points ++ [CanvasOp.stroke]

/-- The full operation trace of one `drawPaths` run on a canvas of size
`W × H`: fill the whole surface white, then `paths.forEach(...)`, then
the `if (currentPath)` branch. -/
def renderOps (W H : ℕ) (ps : List Stroke) (cur : Option Stroke) : List CanvasOp :=
  let base := [CanvasOp.setFillStyle "white", CanvasOp.fillRect 0 0 (W : ℚ) (H : ℚ)]
  let withPaths := ps.foldl (fun acc k => acc ++ strokeOps k) base
  match cur with
  | some k => withPaths ++ strokeOps k
  | none => withPaths

theorem foldl_append_strokeOps (ps : List Stroke) (acc : List CanvasOp) :
    ps.foldl (fun a k => a ++ strokeOps k) acc = acc ++ (ps.map strokeOps).flatten := by
  induction ps generalizing acc with
  | nil => simp
  | cons k ps ih => simp [ih, List.append_assoc]

theorem enumFrom_pathPointOps (rest : List Point) (n : ℕ) (hn : n ≠ 0) :
    (List.enumFrom n rest).map
        (fun ip => if ip.1 = 0 then CanvasOp.moveTo ip.2 else CanvasOp.lineTo ip.2) =
      rest.map CanvasOp.lineTo := by
  induction rest generalizing n with
  | nil => rfl
  | cons p rest ih =>
      simp only [List.enumFrom, List.map_cons, if_neg hn]
      rw [ih (n + 1) (Nat.succ_ne_zero n)]

/-- The point loop renders a polyline: `moveTo` the first point, then
`lineTo` each subsequent point. -/
theorem pathPointOps_cons (p : Point) (rest : List Point) :
    pathPointOps (p :: rest) = CanvasOp.moveTo p :: rest.map CanvasOp.lineTo := by
  simp only [pathPointOps, List.enum]
  simp only [List.enumFrom, List.map_cons, if_pos rfl]
  rw [enumFrom_pathPointOps rest 1 one_ne_zero]
  simp

/-! ## Pixel semantics of the canvas operations

The react-native-canvas 2d context is modelled as a drawing context
(current styles plus the current path) acting on a surface, a colour for
every pixel.  Painting is clipped to the `W × H` canvas.  A stroked
polyline with round caps and joins covers exactly the pixels within
`lineWidth / 2` of one of its segments (the capsule around the segment);
the code always selects round caps/joins, which this coverage realises. -/

/-- Colour of a pixel; canvas colours are embedded as their CSS names. -/
abbrev Color := String

/-- A surface assigns a colour to every integer pixel coordinate. -/
abbrev Surface := ℤ × ℤ → Color

/-- The geometric centre of a pixel, in canvas coordinates. -/
def pixCenter (q : ℤ × ℤ) : Point := ⟨(q.1 : ℚ), (q.2 : ℚ)⟩

/-- Whether a pixel lies on the `W × H` canvas. -/
def inBounds (W H : ℕ) (q : ℤ × ℤ) : Bool :=
  decide (0 ≤ q.1 ∧ q.1 < (W : ℤ) ∧ 0 ≤ q.2 ∧ q.2 < (H : ℤ))

/-- Whether a point lies in the axis-aligned rectangle of `fillRect`. -/
def inRect (x y w h : ℚ) (c : Point) : Bool :=
  decide (x ≤ c.x ∧ c.x < x + w ∧ y ≤ c.y ∧ c.y < y + h)

/-- Squared euclidean distance between two points. -/
def sqDist (p q : Point) : ℚ := (p.x - q.x) ^ 2 + (p.y - q.y) ^ 2

/-- Whether point `c` lies within `w / 2` of the segment from `a` to `b`
(the round-capped stroke of that segment); a zero-length segment covers
the disc of radius `w / 2` around its point. -/
def segCovers (w : ℚ) (a b c : Point) : Bool :=
  let r2 := (w / 2) ^ 2
  let d2 := sqDist a b
  if d2 = 0 then decide (sqDist c a ≤ r2)
  else
    let t := ((c.x - a.x) * (b.x - a.x) + (c.y - a.y) * (b.y - a.y)) / d2
    let t2 := max 0 (min 1 t)
    decide (sqDist c ⟨a.x + t2 * (b.x - a.x), a.y + t2 * (b.y - a.y)⟩ ≤ r2)

/-- Whether point `c` is covered by the round-capped, round-joined
stroke of width `w` along the polyline `pts`. -/
def pathCovers (w : ℚ) (pts : List Point) (c : Point) : Bool :=
  (pts.zip pts.tail).any (fun ab => segCovers w ab.1 ab.2 c)

/-- The mutable part of a 2d context: fill and stroke styles and the
current path being assembled between `beginPath` and `stroke`. -/
structure Ctx where
  fillStyle : Color
  strokeStyle : Color
  lineWidth : ℚ
  lineCap : String
  lineJoin : String
  path : List Point
deriving Repr

/-- A fresh 2d context (canvas defaults). -/
def defaultCtx : Ctx := ⟨"black", "black", 1, "butt", "miter", []⟩

/-- Effect of one canvas operation on the context and surface.  In this
code `beginPath` always precedes the single `moveTo` of each stroke, so
`moveTo` is modelled as starting the (only) subpath. -/
def execOp (W H : ℕ) (cs : Ctx × Surface) : CanvasOp → Ctx × Surface
  | .setFillStyle c => ({ cs.1 with fillStyle := c }, cs.2)
  | .fillRect x y w h =>
      (cs.1, fun q =>
        if inBounds W H q && inRect x y w h (pixCenter q) then cs.1.fillStyle else cs.2 q)
  | .beginPath => ({ cs.1 with path := [] }, cs.2)
  | .setStrokeStyle c => ({ cs.1 with strokeStyle := c }, cs.2)
  | .setLineWidth w => ({ cs.1 with lineWidth := w }, cs.2)
  | .setLineCap v => ({ cs.1 with lineCap := v }, cs.2)
  | .setLineJoin v => ({ cs.1 with lineJoin := v }, cs.2)
  | .moveTo p => ({ cs.1 with path := [p] }, cs.2)
  | .lineTo p => ({ cs.1 with path := cs.1.path ++ [p] }, cs.2)
  | .stroke =>
      (cs.1, fun q =>
        if inBounds W H q && pathCovers cs.1.lineWidth cs.1.path (pixCenter q)
        then cs.1.strokeStyle else cs.2 q)

/-- Execute a list of canvas operations in order. -/
def execOps (W H : ℕ) (cs : Ctx × Surface) (ops : List CanvasOp) : Ctx × Surface :=
  ops.foldl (execOp W H) cs

/-- One run of the `drawPaths` effect on a `W × H` canvas. -/
def drawPaths (W H : ℕ) (st : DrawingState) (cs : Ctx × Surface) : Ctx × Surface :=
  execOps W H cs (renderOps W H st.paths st.currentPath)

/-- The surface of a canvas before any drawing: the component styles the
canvas with `backgroundColor: 'white'`. -/
def whiteSurface : Surface := fun _ => "white"

/-- The surface of a freshly opened capture UI: the mount run of the
`drawPaths` effect (empty `paths`, null `currentPath`) on the fresh
canvas. -/
def initialSurface (W H : ℕ) : Surface :=
  (drawPaths W H initialDrawingState (defaultCtx, whiteSurface)).2

/-- Two surfaces are pixel-identical on the `W × H` canvas when they
agree on every in-bounds pixel. -/
def pixelIdentical (W H : ℕ) (s1 s2 : Surface) : Prop :=
  ∀ q, inBounds W H q = true → s1 q = s2 q

theorem execOps_append (W H : ℕ) (cs : Ctx × Surface) (l1 l2 : List CanvasOp) :
    execOps W H cs (l1 ++ l2) = execOps W H (execOps W H cs l1) l2 := by
  simp [execOps]

/-- Running the `lineTo` loop appends the points to the current path and
leaves the surface alone. -/
theorem execOps_lineTo (W H : ℕ) (rest : List Point) (c : Ctx) (s : Surface) :
    execOps W H (c, s) (rest.map CanvasOp.lineTo) = ({ c with path := c.path ++ rest }, s) := by
  induction rest generalizing c with
  | nil => simp [execOps]
  | cons p rest ih =>
      simp only [List.map_cons]
      show execOps W H (execOp W H (c, s) (CanvasOp.lineTo p)) (rest.map CanvasOp.lineTo) = _
      rw [show execOp W H (c, s) (CanvasOp.lineTo p) = ({ c with path := c.path ++ [p] }, s) from rfl]
      rw [ih]
      simp

/-- Effect of the point loop on a context whose path was just reset. -/
theorem execOps_pathPointOps (W H : ℕ) (pts : List Point) (c : Ctx) (s : Surface)
    (h : c.path = []) :
    execOps W H (c, s) (pathPointOps pts) = ({ c with path := pts }, s) := by
  cases pts with
  | nil =>
      cases c
      simp only at h
      subst h
      rfl
  | cons p rest =>
      rw [pathPointOps_cons]
      show execOps W H (execOp W H (c, s) (CanvasOp.moveTo p)) (rest.map CanvasOp.lineTo) = _
      rw [show execOp W H (c, s) (CanvasOp.moveTo p) = ({ c with path := [p] }, s) from rfl]
      rw [execOps_lineTo]
      simp

/-- The context produced by executing one stroke's operations. -/
def ctxAfterStroke (c : Ctx) (k : Stroke) : Ctx :=
  { c with
    strokeStyle := k.color, lineWidth := k.width,
    lineCap := "round", lineJoin := "round", path := k.points }

/-- The surface produced by painting one stroke: its covered in-bounds
pixels take the stroke's colour, everything else is untouched. -/
def paintStroke (W H : ℕ) (k : Stroke) (s : Surface) : Surface := fun q =>
  if inBounds W H q && pathCovers k.width k.points (pixCenter q) then k.color else s q

/-- Executing `strokeOps k` paints exactly `paintStroke k` and leaves a
context determined by `k` (the incoming fill style is carried along). -/
theorem execOps_strokeOps (W H : ℕ) (k : Stroke) (c : Ctx) (s : Surface) :
    execOps W H (c, s) (strokeOps k) = (ctxAfterStroke c k, paintStroke W H k s) := by
  show execOps W H (c, s)
      ([CanvasOp.beginPath, CanvasOp.setStrokeStyle k.color, CanvasOp.setLineWidth k.width,
          CanvasOp.setLineCap "round", CanvasOp.setLineJoin "round"]
        ++ pathPointOps k.points ++ [CanvasOp.stroke]) = _
  rw [execOps_append, execOps_append]
  rw [show execOps W H (c, s)
      [CanvasOp.beginPath, CanvasOp.setStrokeStyle k.color, CanvasOp.setLineWidth k.width,
        CanvasOp.setLineCap "round", CanvasOp.setLineJoin "round"] =
      ({ c with
         strokeStyle := k.color, lineWidth := k.width,
         lineCap := "round", lineJoin := "round", path := [] }, s) from rfl]
  rw [execOps_pathPointOps W H k.points _ s rfl]
  rfl

theorem inRect_of_inBounds (W H : ℕ) (q : ℤ × ℤ) (h : inBounds W H q = true) :
    inRect 0 0 (W : ℚ) (H : ℚ) (pixCenter q) = true := by
  simp only [inBounds, decide_eq_true_eq] at h
  obtain ⟨h1, h2, h3, h4⟩ := h
  simp only [inRect, pixCenter, decide_eq_true_eq, zero_add]
  refine ⟨by exact_mod_cast h1, by exact_mod_cast h2, by exact_mod_cast h3, by exact_mod_cast h4⟩

theorem paintStroke_pix (W H : ℕ) (k : Stroke) (s1 s2 : Surface)
    (h : pixelIdentical W H s1 s2) :
    pixelIdentical W H (paintStroke W H k s1) (paintStroke W H k s2) := by
  intro q hq
  simp only [paintStroke]
  by_cases hc : (inBounds W H q && pathCovers k.width k.points (pixCenter q)) = true
  · rw [if_pos hc, if_pos hc]
  · rw [if_neg hc, if_neg hc]
    exact h q hq

/-- Painting the committed-stroke block preserves in-bounds agreement of
surfaces, whatever the two incoming contexts are. -/
theorem execOps_flatten_pix (W H : ℕ) (L : List Stroke) (c1 c2 : Ctx) (s1 s2 : Surface)
    (h : pixelIdentical W H s1 s2) :
    pixelIdentical W H
      (execOps W H (c1, s1) ((L.map strokeOps).flatten)).2
      (execOps W H (c2, s2) ((L.map strokeOps).flatten)).2 := by
  induction L generalizing c1 c2 s1 s2 with
  | nil => exact h
  | cons k L ih =>
      simp only [List.map_cons, List.flatten_cons]
      rw [execOps_append, execOps_append, execOps_strokeOps, execOps_strokeOps]
      exact ih _ _ _ _ (paintStroke_pix W H k s1 s2 h)

/-- The surface left by one `drawPaths` run is, on the canvas, a
function of the drawing state alone: the full-canvas white fill at the
start erases the incoming surface, and every context attribute a stroke
uses is set inside that stroke's own operation block. -/
theorem renderOps_eq (W H : ℕ) (ps : List Stroke) (cur : Option Stroke) :
    renderOps W H ps cur =
      [CanvasOp.setFillStyle "white", CanvasOp.fillRect 0 0 (W : ℚ) (H : ℚ)]
        ++ (ps.map strokeOps).flatten
        ++ (match cur with | some k => strokeOps k | none => []) := by
  unfold renderOps
  cases cur <;> simp [foldl_append_strokeOps, List.append_assoc]

theorem drawPaths_pix (W H : ℕ) (st : DrawingState) (cs1 cs2 : Ctx × Surface) :
    pixelIdentical W H (drawPaths W H st cs1).2 (drawPaths W H st cs2).2 := by
  obtain ⟨c1, s1⟩ := cs1
  obtain ⟨c2, s2⟩ := cs2
  have hfill : ∀ (c : Ctx) (s : Surface),
      execOps W H (c, s)
          [CanvasOp.setFillStyle "white", CanvasOp.fillRect 0 0 (W : ℚ) (H : ℚ)] =
        ({ c with fillStyle := "white" }, fun q =>
          if inBounds W H q && inRect 0 0 (W : ℚ) (H : ℚ) (pixCenter q) then "white" else s q) :=
    fun c s => rfl
  have hwhite : pixelIdentical W H
      (fun q => if inBounds W H q && inRect 0 0 (W : ℚ) (H : ℚ) (pixCenter q)
                then "white" else s1 q)
      (fun q => if inBounds W H q && inRect 0 0 (W : ℚ) (H : ℚ) (pixCenter q)
                then "white" else s2 q) := by
    intro q hq
    have := inRect_of_inBounds W H q hq
    simp [hq, this]
  unfold drawPaths
  rw [renderOps_eq]
  cases st.currentPath with
  | none =>
      simp only [List.append_nil]
      rw [execOps_append, execOps_append, hfill, hfill]
      exact execOps_flatten_pix W H st.paths _ _ _ _ hwhite
  | some k =>
      simp only
      rw [execOps_append, execOps_append, execOps_append, execOps_append, hfill, hfill]
      have hmid := execOps_flatten_pix W H st.paths { c1 with fillStyle := "white" }
        { c2 with fillStyle := "white" } _ _ hwhite
      generalize hA : execOps W H ({ c1 with fillStyle := "white" },
        fun q => if inBounds W H q && inRect 0 0 (W : ℚ) (H : ℚ) (pixCenter q)
                 then "white" else s1 q) ((st.paths.map strokeOps).flatten) = A at *
      generalize hB : execOps W H ({ c2 with fillStyle := "white" },
        fun q => if inBounds W H q && inRect 0 0 (W : ℚ) (H : ℚ) (pixCenter q)
                 then "white" else s2 q) ((st.paths.map strokeOps).flatten) = B at *
      obtain ⟨cA, sA⟩ := A
      obtain ⟨cB, sB⟩ := B
      rw [execOps_strokeOps, execOps_strokeOps]
      exact paintStroke_pix W H k sA sB hmid

/-! ## Saving -/

/-- The observable outcome of one `saveDrawing` invocation: whether the
error alert was shown, the argument `onSave` was invoked with (if it
was), whether `onClose` was invoked, and the drawing state and surface
afterwards. -/
structure SaveOutcome where
  alerted : Bool
  onSaveArg : Option String
  onCloseCalled : Bool
  stateAfter : DrawingState
  surfaceAfter : Surface

/-- `saveDrawing`: `if (canvasRef.current) { try { const dataURL = await
canvasRef.current.toDataURL(); onSave(dataURL); onClose(); } catch
(error) { console.error(...); Alert.alert('Error', 'Could not save
drawing'); } }`.  `avail` is whether `canvasRef.current` is non-null;
`enc` is the platform `toDataURL` outcome (a data URL, or a thrown
error).  The handler never touches `paths`, `currentPath` or the
surface. -/
def saveDrawing (avail : Bool) (enc : Except String String) (st : DrawingState)
    (surf : Surface) : SaveOutcome :=
  if avail then
    match enc with
    | .ok dataURL => ⟨false, some dataURL, true, st, surf⟩
    | .error _ => ⟨true, none, false, st, surf⟩
  else ⟨false, none, false, st, surf⟩

/-! ## The encoded image

Modelled from the spec: the platform encoder (`canvas.toDataURL`) is not
part of this repository.  The spec requires only a self-contained,
portable, lossless, decodable and deterministic encoding of the current
surface pixels, so it is modelled as the row-major dump of the canvas's
in-bounds pixel colours. -/

/-- Modelled from the spec: deterministic lossless encoding of the
`W × H` surface as its rows of pixel colours. -/
def encodeImage (W H : ℕ) (s : Surface) : List (List Color) :=
  (List.range H).map (fun j => (List.range W).map (fun i => s (Int.ofNat i, Int.ofNat j)))

/-- Modelled from the spec: decoding an encoded image back into a
surface (pixels outside the encoded grid default to the empty colour). -/
def decodeImage (e : List (List Color)) : Surface :=
  fun q => (e.getD q.2.toNat []).getD q.1.toNat ""

/-- The well-defined blank-image encoding: every pixel is the white
background. -/
def blankEncoding (W H : ℕ) : List (List Color) :=
  (List.range H).map (fun _ => (List.range W).map (fun _ => "white"))

/-- A repaint of the empty drawing state leaves every in-bounds pixel
white. -/
theorem drawPaths_empty_white (W H : ℕ) (cs : Ctx × Surface) :
    pixelIdentical W H (drawPaths W H ⟨[], none⟩ cs).2 whiteSurface := by
  obtain ⟨c, s⟩ := cs
  intro q hq
  have hr := inRect_of_inBounds W H q hq
  show (execOps W H (c, s) (renderOps W H [] none)).2 q = _
  rw [renderOps_eq]
  simp only [List.map_nil, List.flatten_nil, List.append_nil]
  show (if inBounds W H q && inRect 0 0 (W : ℚ) (H : ℚ) (pixCenter q)
        then "white" else s q) = whiteSurface q
  rw [hq, hr]
  rfl

/-- A surface that is white on the canvas encodes to the blank image. -/
theorem encodeImage_blank (W H : ℕ) (s : Surface)
    (h : pixelIdentical W H s whiteSurface) :
    encodeImage W H s = blankEncoding W H := by
  unfold encodeImage blankEncoding
  refine List.map_congr_left (fun j hj => ?_)
  refine List.map_congr_left (fun i hi => ?_)
  rw [List.mem_range] at hj hi
  have hw : whiteSurface (Int.ofNat i, Int.ofNat j) = "white" := rfl
  rw [← hw]
  refine h _ ?_
  simp only [inBounds, decide_eq_true_eq]
  exact ⟨Int.ofNat_nonneg i, Int.ofNat_lt.mpr hi, Int.ofNat_nonneg j, Int.ofNat_lt.mpr hj⟩

/-- The blank encoding decodes back to the white surface on the canvas. -/
theorem decodeImage_blank (W H : ℕ) :
    pixelIdentical W H (decodeImage (blankEncoding W H)) whiteSurface := by
  intro q hq
  simp only [inBounds, decide_eq_true_eq] at hq
  obtain ⟨h1, h2, h3, h4⟩ := hq
  have hj : q.2.toNat < H := by omega
  have hi : q.1.toNat < W := by omega
  unfold decodeImage blankEncoding whiteSurface
  simp [List.getD_eq_getElem?_getD, List.getElem?_range, hj, hi]

/-! ## Style invariant -/

/-- Every stroke in the state, committed or active, has the fixed style
`color: 'black', width: 2`. -/
def fixedStyle (st : DrawingState) : Prop :=
  (∀ k ∈ st.paths, k.color = "black" ∧ k.width = 2) ∧
  (∀ k, st.currentPath = some k → k.color = "black" ∧ k.width = 2)

theorem stepAction_fixedStyle (st : DrawingState) (a : DAction) (st' : DrawingState)
    (h : stepAction st a = some st') (hst : fixedStyle st) : fixedStyle st' := by
  obtain ⟨hp, hc⟩ := hst
  cases a with
  | grant lx ly =>
      cases h
      refine ⟨hp, ?_⟩
      intro k hk
      simp only [onPanResponderGrant, Option.some.injEq] at hk
      subst hk
      exact ⟨rfl, rfl⟩
  | move lx ly =>
      simp only [stepAction, onPanResponderMove] at h
      cases hcur : st.currentPath with
      | none => rw [hcur] at h; cases h
      | some c =>
          rw [hcur] at h
          simp only [Option.some.injEq] at h
          subst h
          refine ⟨hp, ?_⟩
          intro k hk
          simp only [Option.some.injEq] at hk
          subst hk
          exact hc c hcur
  | release =>
      simp only [stepAction, onPanResponderRelease, capturedCurrentPath,
        Option.some.injEq] at h
      subst h
      exact ⟨hp, hc⟩
  | terminate =>
      cases h
      exact ⟨hp, hc⟩
  | clear =>
      cases h
      refine ⟨?_, ?_⟩
      · intro k hk
        cases hk
      · intro k hk
        cases hk

theorem runActions_fixedStyle (acts : List DAction) (st : DrawingState) (hst : fixedStyle st)
    (st' : DrawingState) (h : runActions st acts = some st') : fixedStyle st' := by
  induction acts generalizing st with
  | nil =>
      rw [runActions_nil] at h
      cases h
      exact hst
  | cons a acts ih =>
      rw [runActions_cons] at h
      cases ha : stepAction st a with
      | none => rw [ha] at h; cases h
      | some st1 =>
          rw [ha, Option.some_bind] at h
          exact ih st1 (stepAction_fixedStyle st a st1 ha hst) h

/-! ## The claims -/

/-- Claim C1 (code bug): the release handler's closure is frozen at the
first render with `currentPath = null`, so its `if (currentPath)` guard
never fires — a complete gesture (one gesture-start, any number of
gesture-moves, one gesture-end) commits nothing: the StrokeSet is
unchanged (never grown by one) and the ActiveStroke is not reset.  In
particular the gesture start (10,10), move (20,10), move (20,20), end
leaves the StrokeSet empty with the 3-point stroke still active. -/
theorem gesture_cycle_commits_nothing (st : DrawingState) (lx ly : ℚ)
    (ms : List (ℚ × ℚ)) :
    runActions st
        (DAction.grant lx ly :: ms.map (fun q => DAction.move q.1 q.2) ++ [DAction.release]) =
      some ⟨st.paths, some ⟨⟨lx, ly⟩ :: ms.map (fun q => ⟨q.1, q.2⟩), "black", 2⟩⟩ ∧
    runActions initialDrawingState
        [DAction.grant 10 10, DAction.move 20 10, DAction.move 20 20, DAction.release] =
      some ⟨[], some ⟨[⟨10, 10⟩, ⟨20, 10⟩, ⟨20, 20⟩], "black", 2⟩⟩ := by
  refine ⟨?_, rfl⟩
  rw [runActions_append, runActions_cons]
  simp only [stepAction, Option.some_bind]
  rw [runActions_moves ms (onPanResponderGrant lx ly st) ⟨[⟨lx, ly⟩], "black", 2⟩ rfl,
    Option.some_bind, runActions_cons]
  simp [stepAction, onPanResponderGrant, onPanResponderRelease, capturedCurrentPath,
    runActions_nil]

/-- Claim C2, counterexample: after start at (5,5), move to (8,8) and a
gesture-cancel, the StrokeSet is still empty and the ActiveStroke is
still the in-progress 2-point stroke — not, as claimed, one committed
stroke and a null ActiveStroke. -/
theorem cancel_scenario_keeps_active_stroke :
    runActions initialDrawingState
        [DAction.grant 5 5, DAction.move 8 8, DAction.terminate] =
      some ⟨[], some ⟨[⟨5, 5⟩, ⟨8, 8⟩], "black", 2⟩⟩ ∧
    ¬ ∃ st', runActions initialDrawingState
          [DAction.grant 5 5, DAction.move 8 8, DAction.terminate] =
        some st' ∧ st'.paths.length = 1 ∧ st'.currentPath = none := by
  refine ⟨rfl, ?_⟩
  rintro ⟨st', h1, h2, h3⟩
  rw [show runActions initialDrawingState
        [DAction.grant 5 5, DAction.move 8 8, DAction.terminate] =
      some ⟨[], some ⟨[⟨5, 5⟩, ⟨8, 8⟩], "black", 2⟩⟩ from rfl] at h1
  cases h1
  simp at h2

/-- Claim C2, amended: `PanResponder.create` supplies no terminate
handler, so a gesture-cancel leaves the drawing state unchanged — the
partially-drawn ActiveStroke is neither committed nor discarded; after
start at (5,5), move to (8,8), cancel, the StrokeSet is empty and the
ActiveStroke is the 2-point stroke. -/
theorem cancel_leaves_state_unchanged (st : DrawingState) :
    stepAction st DAction.terminate = some st ∧
    runActions initialDrawingState
        [DAction.grant 5 5, DAction.move 8 8, DAction.terminate] =
      some ⟨[], some ⟨[⟨5, 5⟩, ⟨8, 8⟩], "black", 2⟩⟩ :=
  ⟨rfl, rfl⟩

/-- Claim C3, counterexample: when the underlying surface is unavailable
(`canvasRef.current` null) the save attempt shows no user-visible
notification at all — the failure is swallowed silently, contradicting
the claim that every encode failure is alerted. -/
theorem save_unavailable_is_silent :
    (saveDrawing false (Except.error "encoder gone") initialDrawingState whiteSurface).alerted
      ≠ true := by
  simp [saveDrawing]

/-- Claim C3, amended: when the surface is available and the platform
encoder raises, the failure is reported via the user-visible alert, the
onSave and onClose callbacks are not invoked, and the StrokeSet,
ActiveStroke and surface are unchanged; when the surface is unavailable,
save is a silent no-op — no notification, no callbacks, state and
surface unchanged. -/
theorem save_failure_behaviour (st : DrawingState) (surf : Surface) (msg : String)
    (enc : Except String String) :
    saveDrawing true (Except.error msg) st surf = ⟨true, none, false, st, surf⟩ ∧
    saveDrawing false enc st surf = ⟨false, none, false, st, surf⟩ :=
  ⟨rfl, rfl⟩

/-- Claim C4: for every prior state, clearCanvas empties the StrokeSet
and nulls the ActiveStroke, and the repaint it triggers yields a surface
pixel-identical to the initial blank background-filled surface; the
operation is total. -/
theorem clear_resets_and_blanks (W H : ℕ) (st : DrawingState) (cs : Ctx × Surface) :
    (clearCanvas st).paths = [] ∧ (clearCanvas st).currentPath = none ∧
    pixelIdentical W H (drawPaths W H (clearCanvas st) cs).2 (initialSurface W H) :=
  ⟨rfl, rfl, drawPaths_pix W H ⟨[], none⟩ cs (defaultCtx, whiteSurface)⟩

/-- Claim C5: a repaint first fills the whole surface with the fixed
white background, then draws each committed stroke in StrokeSet order,
then the ActiveStroke if present; each stroke is drawn with its own
colour and width, round line caps and joins, as a connected polyline —
moveTo its first point, lineTo each subsequent point. -/
theorem drawPaths_render_structure (W H : ℕ) (ps : List Stroke) (cur : Option Stroke)
    (k : Stroke) (p : Point) (rest : List Point) (hk : k.points = p :: rest) :
    renderOps W H ps cur =
      [CanvasOp.setFillStyle "white", CanvasOp.fillRect 0 0 (W : ℚ) (H : ℚ)]
        ++ (ps.map strokeOps).flatten
        ++ (match cur with | some k' => strokeOps k' | none => []) ∧
    strokeOps k =
      [CanvasOp.beginPath, CanvasOp.setStrokeStyle k.color, CanvasOp.setLineWidth k.width,
          CanvasOp.setLineCap "round", CanvasOp.setLineJoin "round"]
        ++ (CanvasOp.moveTo p :: rest.map CanvasOp.lineTo) ++ [CanvasOp.stroke] := by
  refine ⟨renderOps_eq W H ps cur, ?_⟩
  unfold strokeOps
  rw [hk, pathPointOps_cons]

/-- Claim C5 witness: the two-point stroke from (0,0) to (1,1) is drawn
as moveTo (0,0) then lineTo (1,1) with round caps and joins. -/
theorem drawPaths_render_structure_witness :
    strokeOps ⟨[⟨0, 0⟩, ⟨1, 1⟩], "black", 2⟩ =
      [CanvasOp.beginPath, CanvasOp.setStrokeStyle "black", CanvasOp.setLineWidth 2,
          CanvasOp.setLineCap "round", CanvasOp.setLineJoin "round"]
        ++ (CanvasOp.moveTo ⟨0, 0⟩ :: [(⟨1, 1⟩ : Point)].map CanvasOp.lineTo)
        ++ [CanvasOp.stroke] :=
  (drawPaths_render_structure 1 1 [] none ⟨[⟨0, 0⟩, ⟨1, 1⟩], "black", 2⟩ ⟨0, 0⟩ [⟨1, 1⟩] rfl).2

/-- Claim C6: repaint is idempotent — running the repaint again with the
same StrokeSet and ActiveStroke, starting from whatever context and
surface the first repaint left, produces a pixel-identical surface. -/
theorem repaint_idempotent (W H : ℕ) (st : DrawingState) (cs : Ctx × Surface) :
    pixelIdentical W H (drawPaths W H st (drawPaths W H st cs)).2 (drawPaths W H st cs).2 :=
  drawPaths_pix W H st _ cs

/-- Claim C7: saving with an empty StrokeSet and no ActiveStroke
succeeds — no alert, onSave receives the encoding, onClose fires — and
the encoding of the repainted empty canvas is exactly the well-defined
blank-image encoding, which decodes back to the blank white surface. -/
theorem save_empty_canvas_succeeds (W H : ℕ) (cs : Ctx × Surface) (u : String) :
    (saveDrawing true (Except.ok u) ⟨[], none⟩ (drawPaths W H ⟨[], none⟩ cs).2).alerted
        = false ∧
    (saveDrawing true (Except.ok u) ⟨[], none⟩ (drawPaths W H ⟨[], none⟩ cs).2).onSaveArg
        = some u ∧
    (saveDrawing true (Except.ok u) ⟨[], none⟩ (drawPaths W H ⟨[], none⟩ cs).2).onCloseCalled
        = true ∧
    encodeImage W H (drawPaths W H ⟨[], none⟩ cs).2 = blankEncoding W H ∧
    pixelIdentical W H (decodeImage (encodeImage W H (drawPaths W H ⟨[], none⟩ cs).2))
      whiteSurface := by
  have henc : encodeImage W H (drawPaths W H ⟨[], none⟩ cs).2 = blankEncoding W H :=
    encodeImage_blank W H _ (drawPaths_empty_white W H cs)
  refine ⟨rfl, rfl, rfl, henc, ?_⟩
  rw [henc]
  exact decodeImage_blank W H

/-- Claim C8: the gesture-move handler appends the sampled point and
totally succeeds exactly when an ActiveStroke exists; delivered with a
null ActiveStroke it dereferences null and errors, so the error branch
is unreachable precisely when a gesture-start precedes every
gesture-move. -/
theorem move_requires_active_stroke (st : DrawingState) (lx ly : ℚ) :
    (st.currentPath = none → onPanResponderMove lx ly st = none) ∧
    (∀ c, st.currentPath = some c →
      onPanResponderMove lx ly st =
        some ⟨st.paths, some ⟨c.points ++ [⟨lx, ly⟩], c.color, c.width⟩⟩) := by
  constructor
  · intro h
    simp [onPanResponderMove, h]
  · intro c h
    cases st with
    | mk paths cur =>
        simp only at h
        subst h
        rfl

/-- Claim C8 witness: a move with no active stroke errors; a move with
an active one-point stroke appends the point. -/
theorem move_requires_active_stroke_witness :
    onPanResponderMove 1 2 ⟨[], none⟩ = none ∧
    onPanResponderMove 1 2 ⟨[], some ⟨[⟨0, 0⟩], "black", 2⟩⟩ =
      some ⟨[], some ⟨[⟨0, 0⟩, ⟨1, 2⟩], "black", 2⟩⟩ :=
  ⟨(move_requires_active_stroke ⟨[], none⟩ 1 2).1 rfl,
    (move_requires_active_stroke ⟨[], some ⟨[⟨0, 0⟩], "black", 2⟩⟩ 1 2).2 _ rfl⟩

/-- Claim C9: a successful save invokes onSave with the data URL and
then onClose, shows no alert, and is read-only on the drawing state: the
StrokeSet, ActiveStroke and surface are exactly what they were. -/
theorem save_success_preserves_state (st : DrawingState) (surf : Surface) (u : String) :
    saveDrawing true (Except.ok u) st surf = ⟨false, some u, true, st, surf⟩ ∧
    ∀ avail enc, (saveDrawing avail enc st surf).stateAfter = st ∧
      (saveDrawing avail enc st surf).surfaceAfter = surf := by
  refine ⟨rfl, ?_⟩
  intro avail enc
  cases avail <;> cases enc <;> exact ⟨rfl, rfl⟩

/-- Claim C10: in every state reachable from the initial state by
gesture and clear events, every committed stroke and any active stroke
has colour 'black' and width 2 — strokes are created with the fixed
style and no operation changes it. -/
theorem strokes_always_black_width_two (acts : List DAction) (st' : DrawingState)
    (h : runActions initialDrawingState acts = some st') :
    (∀ k ∈ st'.paths, k.color = "black" ∧ k.width = 2) ∧
    (∀ k, st'.currentPath = some k → k.color = "black" ∧ k.width = 2) := by
  have hinit : fixedStyle initialDrawingState := by
    refine ⟨?_, ?_⟩ <;> intro k hk <;> cases hk
  exact runActions_fixedStyle acts initialDrawingState hinit st' h

/-- Claim C10 witness: the state after one full gesture satisfies the
fixed-style invariant. -/
theorem strokes_always_black_width_two_witness :
    (∀ k ∈ (⟨[], some ⟨[⟨1, 1⟩, ⟨2, 2⟩], "black", 2⟩⟩ : DrawingState).paths,
        k.color = "black" ∧ k.width = 2) ∧
    (∀ k, (⟨[], some ⟨[⟨1, 1⟩, ⟨2, 2⟩], "black", 2⟩⟩ : DrawingState).currentPath = some k →
        k.color = "black" ∧ k.width = 2) :=
  strokes_always_black_width_two [DAction.grant 1 1, DAction.move 2 2, DAction.release] _ rfl

end XMLForm
